import Mathlib

/-!
Verification of the inbound-trunk reconciliation script (`setup_inbound.py`).

The script is a one-shot sequential procedure against a remote telephony
control plane.  We embed it shallowly:

* the remote state is a list of inbound trunks, a list of dispatch rules and a
  counter from which the remote service assigns fresh identifiers (identifiers
  are opaque tokens compared only for equality in the source, so we model them
  as naturals);
* every remote call the script can issue is a constructor of `Call`;
* the sequence of remote calls the script issues is deterministic in the
  initial remote state (list responses are read before any mutation, and the
  identifier returned by trunk creation is the next fresh identifier), so the
  whole run is captured by `plan` (the intended call sequence) plus an
  executor that cuts the sequence at an injected failure point (`failAt`),
  mirroring an exception raised by the n-th remote call;
* the `try/finally` of the source is modelled explicitly: the client-close
  call is appended to the trace whenever the body was entered, and the
  unguarded crash on a missing project URL (line 20 runs before the `try`)
  is the branch in which no remote call and no close happens.
-/

/-- `SIPInboundTrunkInfo` (fields used by the script): remote trunk record. -/
structure SIPInboundTrunkInfo where
  sip_trunk_id : Nat
  name : String
  numbers : List String
  allowed_addresses : List String
  krisp_enabled : Bool
deriving DecidableEq

/-- `SIPDispatchRuleIndividual`: the "individual" routing variant payload. -/
structure SIPDispatchRuleIndividual where
  roomPrefix : String
deriving DecidableEq

/-- `SIPDispatchRule`: rule variant wrapper (the script only builds the
`dispatch_rule_individual` arm). -/
inductive SIPDispatchRule where
  | individual (rule : SIPDispatchRuleIndividual)
deriving DecidableEq

/-- `RoomAgentDispatch`: one agent to dispatch into the created room. -/
structure RoomAgentDispatch where
  agent_name : String
deriving DecidableEq

/-- `RoomConfiguration` (fields used by the script). -/
structure RoomConfiguration where
  agents : List RoomAgentDispatch
deriving DecidableEq

/-- `SIPDispatchRuleInfo` (fields used by the script): remote rule record. -/
structure SIPDispatchRuleInfo where
  sip_dispatch_rule_id : Nat
  name : String
  trunk_ids : List Nat
  rule : SIPDispatchRule
  room_config : RoomConfiguration
deriving DecidableEq

/-- The remote control plane's state: the two resource lists plus the counter
from which it assigns fresh identifiers. -/
structure RemoteState where
  trunks : List SIPInboundTrunkInfo
  rules : List SIPDispatchRuleInfo
  nextId : Nat
deriving DecidableEq

/-- Payload of `CreateSIPInboundTrunkRequest` as built on lines 68-77 (the
identifier is assigned remotely, so the request carries none). -/
structure CreateTrunkRequest where
  name : String
  numbers : List String
  allowed_addresses : List String
  krisp_enabled : Bool
deriving DecidableEq

/-- Payload of `CreateSIPDispatchRuleRequest` as built on lines 83-96. -/
structure CreateRuleRequest where
  name : String
  trunk_ids : List Nat
  rule : SIPDispatchRule
  room_config : RoomConfiguration
deriving DecidableEq

/-- One remote call issued by the script (`close` is the `aclose` of the
`finally` block). -/
inductive Call where
  | listTrunks
  | listRules
  | deleteRule (sip_dispatch_rule_id : Nat)
  | deleteTrunk (sip_trunk_id : Nat)
  | createTrunk (trunk : CreateTrunkRequest)
  | createRule (rule : CreateRuleRequest)
  | close
deriving DecidableEq

/-- `AGENT_NAME = "voice-assistant"` (line 15). -/
def AGENT_NAME : String := "voice-assistant"

/-- Effect of a successful remote call on the control-plane state.  Deletions
remove the record with the given identifier; creations append a record carrying
the next fresh identifier. -/
def applyCall (s : RemoteState) : Call → RemoteState
  | .listTrunks => s
  | .listRules => s
  | .close => s
  | .deleteRule rid =>
      { s with rules := s.rules.filter (fun r => !(r.sip_dispatch_rule_id == rid)) }
  | .deleteTrunk tid =>
      { s with trunks := s.trunks.filter (fun t => !(t.sip_trunk_id == tid)) }
  | .createTrunk req =>
      { s with
        trunks := s.trunks ++
          [{ sip_trunk_id := s.nextId, name := req.name, numbers := req.numbers,
             allowed_addresses := req.allowed_addresses,
             krisp_enabled := req.krisp_enabled }],
        nextId := s.nextId + 1 }
  | .createRule req =>
      { s with
        rules := s.rules ++
          [{ sip_dispatch_rule_id := s.nextId, name := req.name,
             trunk_ids := req.trunk_ids, rule := req.rule,
             room_config := req.room_config }],
        nextId := s.nextId + 1 }

/-- Lines 35-41: ids of trunks whose `numbers` is non-empty (Python truthiness
of `t.numbers`) and contains the target number, collected in list order. -/
def trunks_to_delete (number : String) (trunks : List SIPInboundTrunkInfo) : List Nat :=
  (trunks.filter (fun t => !t.numbers.isEmpty && t.numbers.contains number)).map
    (fun t => t.sip_trunk_id)

/-- Line 50: `any(trunk_id in r.trunk_ids for trunk_id in trunks_to_delete)`. -/
def ruleConflicts (tids : List Nat) (r : SIPDispatchRuleInfo) : Bool :=
  tids.any (fun tid => r.trunk_ids.contains tid)

/-- Ids of the dispatch rules the cascade deletes (lines 48-54): the listed
rules satisfying `ruleConflicts`, in list order. -/
def deletedRuleIds (number : String) (s : RemoteState) : List Nat :=
  ((s.rules.filter (ruleConflicts (trunks_to_delete number s.trunks))).map
    (fun r => r.sip_dispatch_rule_id))

/-- The `SIPInboundTrunkInfo` literal of lines 70-75. -/
def newTrunkRequest (number : String) : CreateTrunkRequest :=
  { name := "Vobiz Inbound"
    numbers := [number]
    allowed_addresses := ["0.0.0.0/0"]
    krisp_enabled := true }

/-- The `SIPDispatchRuleInfo` literal of lines 83-96, parameterised by the
trunk id captured from the create-trunk response (line 78). -/
def newRuleRequest (trunk_id : Nat) : CreateRuleRequest :=
  { name := "Inbound Agent Dispatch"
    trunk_ids := [trunk_id]
    rule := SIPDispatchRule.individual { roomPrefix := "call-" }
    room_config := { agents := [{ agent_name := AGENT_NAME }] } }

/-- The trunk record the remote service stores for the create request when the
fresh identifier is `i`. -/
def assignedTrunk (number : String) (i : Nat) : SIPInboundTrunkInfo :=
  { sip_trunk_id := i, name := "Vobiz Inbound", numbers := [number],
    allowed_addresses := ["0.0.0.0/0"], krisp_enabled := true }

/-- The rule record stored for the create request when the new trunk got
identifier `i` (the rule itself then gets `i + 1`). -/
def assignedRule (i : Nat) : SIPDispatchRuleInfo :=
  { sip_dispatch_rule_id := i + 1, name := "Inbound Agent Dispatch",
    trunk_ids := [i],
    rule := SIPDispatchRule.individual { roomPrefix := "call-" },
    room_config := { agents := [{ agent_name := AGENT_NAME }] } }

/-- The sequence of remote calls the `try` body issues against initial state
`s` (lines 34-101).  List responses are taken before any mutation and the id
returned by trunk creation is `s.nextId` (deletions do not consume ids), so
the sequence is a function of `s`. -/
def plan (number : String) (s : RemoteState) : List Call :=
  let tds := trunks_to_delete number s.trunks
  [Call.listTrunks] ++
  (if tds.isEmpty then [] else
    [Call.listRules] ++
    ((s.rules.filter (ruleConflicts tds)).map
      (fun r => Call.deleteRule r.sip_dispatch_rule_id)) ++
    tds.map Call.deleteTrunk) ++
  [Call.createTrunk (newTrunkRequest number),
   Call.createRule (newRuleRequest s.nextId)]

/-- Calls whose effect lands before an exception at call index `n` aborts the
run (`none`: no call fails). -/
def executedCalls (failAt : Option Nat) (cs : List Call) : List Call :=
  match failAt with
  | none => cs
  | some n => cs.take n

/-- Calls issued at all: the failing call is issued but has no effect, and
nothing after it is attempted. -/
def attemptedCalls (failAt : Option Nat) (cs : List Call) : List Call :=
  match failAt with
  | none => cs
  | some n => cs.take (n + 1)

/-- Whether the run reaches the end of the `try` body. -/
def runSucceeds (failAt : Option Nat) (cs : List Call) : Bool :=
  match failAt with
  | none => true
  | some n => decide (cs.length ≤ n)

def isCreateTrunkCall : Call → Bool
  | .createTrunk _ => true
  | _ => false

def isCreateRuleCall : Call → Bool
  | .createRule _ => true
  | _ => false

def isDeleteRuleCall : Call → Bool
  | .deleteRule _ => true
  | _ => false

def isDeleteTrunkCall : Call → Bool
  | .deleteTrunk _ => true
  | _ => false

def isDeleteCall (c : Call) : Bool := isDeleteRuleCall c || isDeleteTrunkCall c

def isCreateCall (c : Call) : Bool := isCreateTrunkCall c || isCreateRuleCall c

/-- Line 20-21: strip the scheme, take the first dot-separated component,
append the SIP domain. -/
def deriveSipEndpoint (url : String) : String :=
  (((url.replace "wss://" "").replace "ws://" "").splitOn ".").headD ""
    ++ ".sip.livekit.cloud"

/-- Observable outcome of one run of `main`. -/
structure RunResult where
  finalState : RemoteState
  remoteTrace : List Call
  fullTrace : List Call
  ok : Bool
  sipEndpoint : Option String
  trunkId : Option Nat
deriving DecidableEq

/-- One run of `main` (lines 17-119).  `url` is `LIVEKIT_URL`: when it is
unset the attribute access on line 20 raises before the `try` block, so no
remote call is made and — the `finally` not being armed yet — the client is
never closed.  Otherwise the body runs `plan` until an injected failure (if
any), and the `finally` close is always appended to the trace. -/
def mainRun (url : Option String) (number : String) (failAt : Option Nat)
    (s : RemoteState) : RunResult :=
  match url with
  | none =>
      { finalState := s, remoteTrace := [], fullTrace := [], ok := false,
        sipEndpoint := none, trunkId := none }
  | some u =>
      let cs := plan number s
      let exec := executedCalls failAt cs
      { finalState := exec.foldl applyCall s
        remoteTrace := attemptedCalls failAt cs
        fullTrace := attemptedCalls failAt cs ++ [Call.close]
        ok := runSucceeds failAt cs
        sipEndpoint := some (deriveSipEndpoint u)
        trunkId := if exec.any isCreateTrunkCall then some s.nextId else none }

/-- Well-formed remote state: every stored identifier (trunk ids, rule ids and
the trunk ids referenced by rules) was assigned in the past (is below
`nextId`), and stored identifiers are unique per resource kind.  This is what
an honest remote service maintains. -/
def WF (s : RemoteState) : Prop :=
  (∀ t ∈ s.trunks, t.sip_trunk_id < s.nextId) ∧
  (∀ r ∈ s.rules, r.sip_dispatch_rule_id < s.nextId ∧
    ∀ i ∈ r.trunk_ids, i < s.nextId) ∧
  (s.trunks.map (fun t => t.sip_trunk_id)).Nodup ∧
  (s.rules.map (fun r => r.sip_dispatch_rule_id)).Nodup

/-- A dispatch rule "references the number" in state `s` when some trunk of
`s` both carries the number and is referenced by the rule. -/
def ruleTargetsNumber (number : String) (s : RemoteState)
    (r : SIPDispatchRuleInfo) : Bool :=
  s.trunks.any (fun t =>
    r.trunk_ids.contains t.sip_trunk_id && t.numbers.contains number)

/-- Sample remote state used to instantiate hypotheses at concrete inputs:
trunk 7 carries the default target number, trunk 8 a different one, rule 3
references trunk 7 and rule 4 references trunk 8. -/
def sampleTrunkA : SIPInboundTrunkInfo :=
  { sip_trunk_id := 7, name := "Old", numbers := ["+912271264190"],
    allowed_addresses := [], krisp_enabled := false }

def sampleTrunkB : SIPInboundTrunkInfo :=
  { sip_trunk_id := 8, name := "Other", numbers := ["+15550000000"],
    allowed_addresses := [], krisp_enabled := false }

def sampleRuleA : SIPDispatchRuleInfo :=
  { sip_dispatch_rule_id := 3, name := "OldRule", trunk_ids := [7],
    rule := SIPDispatchRule.individual { roomPrefix := "x-" },
    room_config := { agents := [] } }

def sampleRuleB : SIPDispatchRuleInfo :=
  { sip_dispatch_rule_id := 4, name := "OtherRule", trunk_ids := [8],
    rule := SIPDispatchRule.individual { roomPrefix := "y-" },
    room_config := { agents := [] } }

def sampleState : RemoteState :=
  { trunks := [sampleTrunkA, sampleTrunkB], rules := [sampleRuleA, sampleRuleB],
    nextId := 10 }

def emptyState : RemoteState := { trunks := [], rules := [], nextId := 0 }

/-- A dispatch rule bound both to the conflicting trunk 7 and to the
unrelated trunk 8. -/
def sampleRuleMixed : SIPDispatchRuleInfo :=
  { sip_dispatch_rule_id := 5, name := "Mixed", trunk_ids := [7, 8],
    rule := SIPDispatchRule.individual { roomPrefix := "z-" },
    room_config := { agents := [] } }

def mixedState : RemoteState :=
  { trunks := [sampleTrunkA, sampleTrunkB], rules := [sampleRuleMixed],
    nextId := 10 }

/-- `noneAfterFirst p q cs`: once the first call satisfying `q` has been
issued, no call satisfying `p` follows. -/
def noneAfterFirst (p q : Call → Bool) (cs : List Call) : Bool :=
  !((cs.dropWhile (fun c => !q c)).any p)

example : trunks_to_delete "+1" [assignedTrunk "+1" 4, assignedTrunk "+2" 9] = [4] := by decide
example :
    plan "+1" { trunks := [], rules := [], nextId := 0 } =
      [Call.listTrunks, Call.createTrunk (newTrunkRequest "+1"),
       Call.createRule (newRuleRequest 0)] := by decide

/-- In a trace where nothing satisfying `p` appears from the first `q`-call
onward, every `p`-call index is strictly below every `q`-call index. -/
theorem noneAfterFirst_lt {p q : Call → Bool} :
    ∀ (cs : List Call), noneAfterFirst p q cs = true →
      ∀ i j (hi : i < cs.length) (hj : j < cs.length),
        p cs[i] = true → q cs[j] = true → i < j := by
  intro cs
  induction cs with
  | nil => intro _ i j hi hj; simp at hi
  | cons c cs ih =>
    intro h i j hi hj hp hq
    by_cases hqc : q c = true
    · exfalso
      have hdw : (c :: cs).dropWhile (fun x => !q x) = c :: cs := by
        simp [List.dropWhile_cons, hqc]
      unfold noneAfterFirst at h
      rw [hdw] at h
      have hall : ∀ x ∈ c :: cs, ¬ p x = true := by
        rw [Bool.not_eq_true', List.any_eq_false] at h
        exact h
      exact hall _ (List.getElem_mem hi) hp
    · have hq0 : q c = false := by
        cases hqcv : q c with
        | false => rfl
        | true => exact absurd hqcv hqc
      have h' : noneAfterFirst p q cs = true := by
        unfold noneAfterFirst at h ⊢
        rw [List.dropWhile_cons, if_pos (by simp [hq0])] at h
        exact h
      match i, j with
      | i, 0 =>
        rw [List.getElem_cons_zero] at hq
        exact absurd hq (by simp [hq0])
      | 0, j + 1 => exact Nat.succ_pos j
      | i + 1, j + 1 =>
        have hi' : i < cs.length := Nat.lt_of_succ_lt_succ hi
        have hj' : j < cs.length := Nat.lt_of_succ_lt_succ hj
        rw [List.getElem_cons_succ] at hp hq
        exact Nat.succ_lt_succ (ih h' i j hi' hj' hp hq)

/-- A trace split into a `q`-free prefix and a `p`-free suffix satisfies
`noneAfterFirst p q`. -/
theorem noneAfterFirst_append {p q : Call → Bool} (a b : List Call)
    (ha : ∀ c ∈ a, q c = false) (hb : ∀ c ∈ b, p c = false) :
    noneAfterFirst p q (a ++ b) = true := by
  unfold noneAfterFirst
  have h1 : (a ++ b).dropWhile (fun c => !q c) = b.dropWhile (fun c => !q c) := by
    induction a with
    | nil => rfl
    | cons c a iha =>
      rw [List.cons_append, List.dropWhile_cons, if_pos]
      · exact iha fun c hc => ha c (List.mem_cons_of_mem _ hc)
      · simp [ha c (List.mem_cons_self _ _)]
  rw [h1]
  have h2 : (b.dropWhile (fun c => !q c)).any p = false := by
    rw [List.any_eq_false]
    intro c hc
    have hcb : c ∈ b := (List.dropWhile_sublist _).subset hc
    simp [hb c hcb]
  simp [h2]

/-- The call plan, with the rule deletions expressed through `deletedRuleIds`. -/
theorem plan_eq (number : String) (s : RemoteState) :
    plan number s =
      [Call.listTrunks] ++
      (if (trunks_to_delete number s.trunks).isEmpty then [] else
        [Call.listRules] ++
        ((deletedRuleIds number s).map Call.deleteRule) ++
        (trunks_to_delete number s.trunks).map Call.deleteTrunk) ++
      [Call.createTrunk (newTrunkRequest number),
       Call.createRule (newRuleRequest s.nextId)] := by
  unfold plan deletedRuleIds
  simp [List.map_map, Function.comp_def]

/-- In every plan, all dispatch-rule deletions precede all trunk deletions. -/
theorem plan_rules_before_trunks (number : String) (s : RemoteState) :
    noneAfterFirst isDeleteRuleCall isDeleteTrunkCall (plan number s) = true := by
  rw [plan_eq]
  by_cases h : (trunks_to_delete number s.trunks).isEmpty
  · rw [if_pos h]
    apply noneAfterFirst_append
    · intro c hc
      rcases List.mem_append.mp hc with hc | hc
      · simp at hc; subst hc; rfl
      · simp at hc
    · intro c hc
      simp at hc
      rcases hc with rfl | rfl <;> rfl
  · rw [if_neg h]
    have hre :
        ([Call.listTrunks] ++
          ([Call.listRules] ++ (deletedRuleIds number s).map Call.deleteRule ++
            (trunks_to_delete number s.trunks).map Call.deleteTrunk)) ++
          [Call.createTrunk (newTrunkRequest number),
           Call.createRule (newRuleRequest s.nextId)] =
        ([Call.listTrunks] ++ [Call.listRules] ++
            (deletedRuleIds number s).map Call.deleteRule) ++
          ((trunks_to_delete number s.trunks).map Call.deleteTrunk ++
            [Call.createTrunk (newTrunkRequest number),
             Call.createRule (newRuleRequest s.nextId)]) := by
      simp [List.append_assoc]
    rw [hre]
    apply noneAfterFirst_append
    · intro c hc
      rcases List.mem_append.mp hc with hc | hc
      · rcases List.mem_append.mp hc with hc | hc
        · simp at hc; subst hc; rfl
        · simp at hc; subst hc; rfl
      · rcases List.mem_map.mp hc with ⟨r, _, rfl⟩; rfl
    · intro c hc
      rcases List.mem_append.mp hc with hc | hc
      · rcases List.mem_map.mp hc with ⟨t, _, rfl⟩; rfl
      · simp at hc; rcases hc with rfl | rfl <;> rfl

/-- In every plan, all deletions precede all creations. -/
theorem plan_deletes_before_creates (number : String) (s : RemoteState) :
    noneAfterFirst isDeleteCall isCreateCall (plan number s) = true := by
  rw [plan_eq]
  apply noneAfterFirst_append
  · intro c hc
    rcases List.mem_append.mp hc with hc | hc
    · simp at hc; subst hc; rfl
    · by_cases h : (trunks_to_delete number s.trunks).isEmpty
      · rw [if_pos h] at hc; simp at hc
      · rw [if_neg h] at hc
        rcases List.mem_append.mp hc with hc | hc
        · rcases List.mem_append.mp hc with hc | hc
          · simp at hc; subst hc; rfl
          · rcases List.mem_map.mp hc with ⟨r, _, rfl⟩; rfl
        · rcases List.mem_map.mp hc with ⟨t, _, rfl⟩; rfl
  · intro c hc
    simp at hc
    rcases hc with rfl | rfl <;> rfl

/-- The plan never contains the client-close call. -/
theorem plan_no_close (number : String) (s : RemoteState) :
    ∀ c ∈ plan number s, c ≠ Call.close := by
  intro c hc
  rw [plan_eq] at hc
  rcases List.mem_append.mp hc with hc | hc
  · rcases List.mem_append.mp hc with hc | hc
    · simp at hc; subst hc; intro hfalse; cases hfalse
    · by_cases h : (trunks_to_delete number s.trunks).isEmpty
      · rw [if_pos h] at hc; simp at hc
      · rw [if_neg h] at hc
        rcases List.mem_append.mp hc with hc | hc
        · rcases List.mem_append.mp hc with hc | hc
          · simp at hc; subst hc; intro hfalse; cases hfalse
          · rcases List.mem_map.mp hc with ⟨r, _, rfl⟩
            intro hfalse; cases hfalse
        · rcases List.mem_map.mp hc with ⟨t, _, rfl⟩
          intro hfalse; cases hfalse
  · simp at hc
    rcases hc with rfl | rfl <;> (intro hfalse; cases hfalse)

theorem mainRun_some_finalState (u number : String) (failAt : Option Nat)
    (s : RemoteState) :
    (mainRun (some u) number failAt s).finalState =
      (executedCalls failAt (plan number s)).foldl applyCall s := rfl

theorem mainRun_some_remoteTrace (u number : String) (failAt : Option Nat)
    (s : RemoteState) :
    (mainRun (some u) number failAt s).remoteTrace =
      attemptedCalls failAt (plan number s) := rfl

theorem mainRun_some_fullTrace (u number : String) (failAt : Option Nat)
    (s : RemoteState) :
    (mainRun (some u) number failAt s).fullTrace =
      attemptedCalls failAt (plan number s) ++ [Call.close] := rfl

theorem mainRun_some_ok (u number : String) (failAt : Option Nat)
    (s : RemoteState) :
    (mainRun (some u) number failAt s).ok = runSucceeds failAt (plan number s) := rfl

theorem mainRun_some_trunkId (u number : String) (failAt : Option Nat)
    (s : RemoteState) :
    (mainRun (some u) number failAt s).trunkId =
      if (executedCalls failAt (plan number s)).any isCreateTrunkCall then
        some s.nextId
      else none := rfl

/-- Folding the rule-deletion calls removes exactly the rules whose id occurs
among the deleted ids, and touches nothing else. -/
theorem foldl_deleteRules : ∀ (rids : List Nat) (s : RemoteState),
    (rids.map Call.deleteRule).foldl applyCall s =
      { s with
        rules := (s.rules.filter (fun r => !(rids.contains r.sip_dispatch_rule_id))) } := by
  intro rids
  induction rids with
  | nil =>
    intro s
    obtain ⟨tr, ru, ni⟩ := s
    simp
  | cons rid rids ih =>
    intro s
    rw [List.map_cons, List.foldl_cons, ih]
    obtain ⟨tr, ru, ni⟩ := s
    simp only [applyCall]
    have hl : (ru.filter (fun r => !(r.sip_dispatch_rule_id == rid))).filter
          (fun r => !(rids.contains r.sip_dispatch_rule_id)) =
        ru.filter (fun r => !((rid :: rids).contains r.sip_dispatch_rule_id)) := by
      rw [List.filter_filter]
      apply List.filter_congr
      intro a _
      rw [List.contains_cons, Bool.not_or, Bool.and_comm]
    exact congrArg (fun l => RemoteState.mk tr l ni) hl

/-- Folding the trunk-deletion calls removes exactly the trunks whose id
occurs among the deleted ids, and touches nothing else. -/
theorem foldl_deleteTrunks : ∀ (tids : List Nat) (s : RemoteState),
    (tids.map Call.deleteTrunk).foldl applyCall s =
      { s with
        trunks := (s.trunks.filter (fun t => !(tids.contains t.sip_trunk_id))) } := by
  intro tids
  induction tids with
  | nil =>
    intro s
    obtain ⟨tr, ru, ni⟩ := s
    simp
  | cons tid tids ih =>
    intro s
    rw [List.map_cons, List.foldl_cons, ih]
    obtain ⟨tr, ru, ni⟩ := s
    simp only [applyCall]
    have hl : (tr.filter (fun t => !(t.sip_trunk_id == tid))).filter
          (fun t => !(tids.contains t.sip_trunk_id)) =
        tr.filter (fun t => !((tid :: tids).contains t.sip_trunk_id)) := by
      rw [List.filter_filter]
      apply List.filter_congr
      intro a _
      rw [List.contains_cons, Bool.not_or, Bool.and_comm]
    exact congrArg (fun l => RemoteState.mk l ru ni) hl

/-- Final remote state of a run in which no call fails: conflicting trunks and
their dependent rules are gone, one fresh trunk and one fresh rule exist. -/
theorem finalState_success (u number : String) (s : RemoteState) :
    (mainRun (some u) number none s).finalState =
      { trunks := s.trunks.filter
            (fun t => !((trunks_to_delete number s.trunks).contains t.sip_trunk_id)) ++
          [assignedTrunk number s.nextId],
        rules := s.rules.filter
            (fun r => !((deletedRuleIds number s).contains r.sip_dispatch_rule_id)) ++
          [assignedRule s.nextId],
        nextId := s.nextId + 2 } := by
  rw [mainRun_some_finalState]
  have hex : executedCalls none (plan number s) = plan number s := rfl
  rw [hex, plan_eq]
  by_cases h : (trunks_to_delete number s.trunks).isEmpty
  · rw [if_pos h]
    have htds : trunks_to_delete number s.trunks = [] := by
      simpa using h
    have hrds : deletedRuleIds number s = [] := by
      unfold deletedRuleIds
      rw [htds]
      have : s.rules.filter (ruleConflicts []) = [] := by
        have : ∀ r ∈ s.rules, ruleConflicts [] r = false := by
          intro r _; rfl
        rw [List.filter_eq_nil_iff]
        intro r hr
        simp [this r hr]
      rw [this]
      rfl
    rw [htds, hrds]
    obtain ⟨tr, ru, ni⟩ := s
    simp [applyCall, assignedTrunk, assignedRule, newTrunkRequest, newRuleRequest]
  · rw [if_neg h]
    simp only [List.foldl_append, List.foldl_cons, List.foldl_nil]
    rw [foldl_deleteRules, foldl_deleteTrunks]
    obtain ⟨tr, ru, ni⟩ := s
    simp [applyCall, assignedTrunk, assignedRule, newTrunkRequest, newRuleRequest]

/-- A listed trunk whose id is not collected for deletion does not carry the
target number. -/
theorem survivor_trunk_not_target (number : String)
    (trunks : List SIPInboundTrunkInfo) (t : SIPInboundTrunkInfo)
    (ht : t ∈ trunks) (hid : t.sip_trunk_id ∉ trunks_to_delete number trunks) :
    t.numbers.contains number = false := by
  cases hcv : t.numbers.contains number with
  | false => rfl
  | true =>
    exfalso
    apply hid
    unfold trunks_to_delete
    refine List.mem_map.mpr ⟨t, List.mem_filter.mpr ⟨ht, ?_⟩, rfl⟩
    have hne : t.numbers ≠ [] := by
      intro h0
      rw [h0] at hcv
      cases hcv
    simp [hcv, hne]
    simpa using hcv

/-- After any successful run, exactly one stored trunk carries the target
number. -/
theorem countP_trunks_target (u number : String) (s : RemoteState) :
    (mainRun (some u) number none s).finalState.trunks.countP
      (fun t => t.numbers.contains number) = 1 := by
  rw [finalState_success, List.countP_append]
  have h0 : (s.trunks.filter
      (fun t => !((trunks_to_delete number s.trunks).contains t.sip_trunk_id))).countP
      (fun t => t.numbers.contains number) = 0 := by
    rw [List.countP_eq_zero]
    intro t ht
    have hmem := (List.mem_filter.mp ht).1
    have hpred := (List.mem_filter.mp ht).2
    have hnp : t.numbers.contains number = false := by
      apply survivor_trunk_not_target number s.trunks t hmem
      intro hin
      simp [List.elem_eq_mem, hin] at hpred
    simpa using hnp
  rw [h0]
  simp [assignedTrunk]

/-- A successful run preserves remote-state well-formedness. -/
theorem WF_finalState (u number : String) (s : RemoteState) (hwf : WF s) :
    WF (mainRun (some u) number none s).finalState := by
  obtain ⟨hwt, hwr, hnt, hnr⟩ := hwf
  rw [finalState_success]
  unfold WF
  dsimp only
  refine ⟨?_, ?_, ?_, ?_⟩
  · intro t ht
    rcases List.mem_append.mp ht with h | h
    · have := hwt t (List.mem_filter.mp h).1
      omega
    · simp at h
      subst h
      simp [assignedTrunk]
  · intro r hr
    rcases List.mem_append.mp hr with h | h
    · have h1 := (hwr r (List.mem_filter.mp h).1).1
      have h2 := (hwr r (List.mem_filter.mp h).1).2
      refine ⟨by omega, fun i hi => by have := h2 i hi; omega⟩
    · simp at h
      subst h
      refine ⟨by simp [assignedRule], fun i hi => ?_⟩
      simp [assignedRule] at hi
      omega
  · simp only [List.map_append]
    rw [List.nodup_append]
    refine ⟨List.Nodup.sublist ((List.filter_sublist _).map _) hnt, by simp, ?_⟩
    intro x hx hy
    simp [assignedTrunk] at hy
    subst hy
    obtain ⟨t, htmem, hid⟩ := List.mem_map.mp hx
    have := hwt t (List.mem_filter.mp htmem).1
    omega
  · simp only [List.map_append]
    rw [List.nodup_append]
    refine ⟨List.Nodup.sublist ((List.filter_sublist _).map _) hnr, by simp, ?_⟩
    intro x hx hy
    simp [assignedRule] at hy
    subst hy
    obtain ⟨r, hrmem, hid⟩ := List.mem_map.mp hx
    have := (hwr r (List.mem_filter.mp hrmem).1).1
    omega

/-- `trunks_to_delete` distributes over list append. -/
theorem trunks_to_delete_append (number : String)
    (l1 l2 : List SIPInboundTrunkInfo) :
    trunks_to_delete number (l1 ++ l2) =
      trunks_to_delete number l1 ++ trunks_to_delete number l2 := by
  unfold trunks_to_delete
  rw [List.filter_append, List.map_append]

/-- No trunk id is collected from a list of trunks that all avoid the target
number. -/
theorem trunks_to_delete_eq_nil (number : String)
    (l : List SIPInboundTrunkInfo)
    (h : ∀ t ∈ l, t.numbers.contains number = false) :
    trunks_to_delete number l = [] := by
  unfold trunks_to_delete
  have hf : l.filter (fun t => !t.numbers.isEmpty && t.numbers.contains number) = [] := by
    rw [List.filter_eq_nil_iff]
    intro t ht
    simp [h t ht]
    intro _
    simpa using h t ht
  rw [hf]
  rfl

theorem deletedRuleIds_def (number : String) (s : RemoteState) :
    deletedRuleIds number s =
      (s.rules.filter (ruleConflicts (trunks_to_delete number s.trunks))).map
        (fun r => r.sip_dispatch_rule_id) := rfl

/-- Against the state a first run left behind, a second run collects for
deletion exactly the trunk and the rule the first run created. -/
theorem second_run_targets (u number : String) (s : RemoteState) (hwf : WF s) :
    trunks_to_delete number (mainRun (some u) number none s).finalState.trunks =
      [s.nextId] ∧
    deletedRuleIds number (mainRun (some u) number none s).finalState =
      [s.nextId + 1] := by
  obtain ⟨hwt, hwr, hnt, hnr⟩ := hwf
  have htds2 : trunks_to_delete number
      (mainRun (some u) number none s).finalState.trunks = [s.nextId] := by
    rw [finalState_success]
    dsimp only
    rw [trunks_to_delete_append]
    have hA : trunks_to_delete number
        (s.trunks.filter
          (fun t => !((trunks_to_delete number s.trunks).contains t.sip_trunk_id))) = [] := by
      apply trunks_to_delete_eq_nil
      intro t ht
      have hmem := (List.mem_filter.mp ht).1
      have hpred := (List.mem_filter.mp ht).2
      apply survivor_trunk_not_target number s.trunks t hmem
      intro hin
      simp [List.elem_eq_mem, hin] at hpred
    rw [hA]
    simp [trunks_to_delete, assignedTrunk]
  refine ⟨htds2, ?_⟩
  rw [deletedRuleIds_def number ((mainRun (some u) number none s).finalState),
    htds2, finalState_success]
  dsimp only
  rw [List.filter_append]
  have hB : (s.rules.filter
      (fun r => !((deletedRuleIds number s).contains r.sip_dispatch_rule_id))).filter
      (ruleConflicts [s.nextId]) = [] := by
    rw [List.filter_eq_nil_iff]
    intro r hr
    have hmem := (List.mem_filter.mp hr).1
    have hb := (hwr r hmem).2
    simp [ruleConflicts]
    intro hin
    have := hb _ hin
    omega
  rw [hB]
  simp [assignedRule, ruleConflicts]

/-- Trunk and rule lists after running the procedure twice in sequence. -/
theorem second_run_state (u number : String) (s : RemoteState) (hwf : WF s) :
    (mainRun (some u) number none
        ((mainRun (some u) number none s).finalState)).finalState.trunks =
      s.trunks.filter
          (fun t => !((trunks_to_delete number s.trunks).contains t.sip_trunk_id)) ++
        [assignedTrunk number (s.nextId + 2)] ∧
    (mainRun (some u) number none
        ((mainRun (some u) number none s).finalState)).finalState.rules =
      s.rules.filter
          (fun r => !((deletedRuleIds number s).contains r.sip_dispatch_rule_id)) ++
        [assignedRule (s.nextId + 2)] := by
  obtain ⟨htds2, hrds2⟩ := second_run_targets u number s hwf
  obtain ⟨hwt, hwr, hnt, hnr⟩ := hwf
  have hs1 := finalState_success u number s
  constructor
  · rw [finalState_success u number ((mainRun (some u) number none s).finalState),
      htds2, hs1]
    dsimp only
    have hfA : (s.trunks.filter
        (fun t => !((trunks_to_delete number s.trunks).contains t.sip_trunk_id))).filter
        (fun t => !(([s.nextId] : List Nat).contains t.sip_trunk_id)) =
        s.trunks.filter
          (fun t => !((trunks_to_delete number s.trunks).contains t.sip_trunk_id)) := by
      rw [List.filter_eq_self]
      intro t ht
      have := hwt t (List.mem_filter.mp ht).1
      simp
      omega
    have hfT : ([assignedTrunk number s.nextId] : List SIPInboundTrunkInfo).filter
        (fun t => !(([s.nextId] : List Nat).contains t.sip_trunk_id)) = [] := by
      simp [assignedTrunk]
    rw [List.filter_append, hfA, hfT, List.append_nil]
  · rw [finalState_success u number ((mainRun (some u) number none s).finalState),
      hrds2, hs1]
    dsimp only
    have hfB : (s.rules.filter
        (fun r => !((deletedRuleIds number s).contains r.sip_dispatch_rule_id))).filter
        (fun r => !(([s.nextId + 1] : List Nat).contains r.sip_dispatch_rule_id)) =
        s.rules.filter
          (fun r => !((deletedRuleIds number s).contains r.sip_dispatch_rule_id)) := by
      rw [List.filter_eq_self]
      intro r hr
      have := (hwr r (List.mem_filter.mp hr).1).1
      simp
      omega
    have hfR : ([assignedRule s.nextId] : List SIPDispatchRuleInfo).filter
        (fun r => !(([s.nextId + 1] : List Nat).contains r.sip_dispatch_rule_id)) = [] := by
      simp [assignedRule]
    rw [List.filter_append, hfB, hfR, List.append_nil]

/-- After a successful run on a well-formed state, exactly one stored rule
references the target number through a stored trunk. -/
theorem countP_rules_target (u number : String) (s : RemoteState) (hwf : WF s) :
    (mainRun (some u) number none s).finalState.rules.countP
      (ruleTargetsNumber number (mainRun (some u) number none s).finalState) = 1 := by
  obtain ⟨hwt, hwr, hnt, hnr⟩ := hwf
  rw [finalState_success]
  unfold ruleTargetsNumber
  dsimp only
  rw [List.countP_append]
  have hB : (s.rules.filter
      (fun r => !((deletedRuleIds number s).contains r.sip_dispatch_rule_id))).countP
      (fun r =>
        (s.trunks.filter
            (fun t => !((trunks_to_delete number s.trunks).contains t.sip_trunk_id)) ++
          [assignedTrunk number s.nextId]).any
          (fun t => r.trunk_ids.contains t.sip_trunk_id &&
            t.numbers.contains number)) = 0 := by
    rw [List.countP_eq_zero]
    intro r hr
    have hmem := (List.mem_filter.mp hr).1
    have hbound := (hwr r hmem).2
    rw [List.any_append]
    have h1 : (s.trunks.filter
        (fun t => !((trunks_to_delete number s.trunks).contains t.sip_trunk_id))).any
        (fun t => r.trunk_ids.contains t.sip_trunk_id &&
          t.numbers.contains number) = false := by
      rw [List.any_eq_false]
      intro t ht
      have hmemt := (List.mem_filter.mp ht).1
      have hpredt := (List.mem_filter.mp ht).2
      have hnc : t.numbers.contains number = false := by
        apply survivor_trunk_not_target number s.trunks t hmemt
        intro hin
        simp [List.elem_eq_mem, hin] at hpredt
      simp [hnc]
      intro _
      simpa using hnc
    have h2 : ([assignedTrunk number s.nextId] : List SIPInboundTrunkInfo).any
        (fun t => r.trunk_ids.contains t.sip_trunk_id &&
          t.numbers.contains number) = false := by
      simp [assignedTrunk]
      intro hin
      have := hbound _ hin
      omega
    rw [h1, h2]
    simp
  rw [hB, Nat.zero_add]
  have hone : (s.trunks.filter
      (fun t => !((trunks_to_delete number s.trunks).contains t.sip_trunk_id)) ++
      [assignedTrunk number s.nextId]).any
      (fun t => (assignedRule s.nextId).trunk_ids.contains t.sip_trunk_id &&
        t.numbers.contains number) = true := by
    rw [List.any_append]
    have h1 : ([assignedTrunk number s.nextId] : List SIPInboundTrunkInfo).any
        (fun t => (assignedRule s.nextId).trunk_ids.contains t.sip_trunk_id &&
          t.numbers.contains number) = true := by
      simp [assignedTrunk, assignedRule]
    rw [h1, Bool.or_true]
  rw [List.countP_cons, List.countP_nil]
  rw [hone]
  simp

/-- The deletion call for each collected trunk id is part of the plan. -/
theorem deleteTrunk_call_mem_plan (number : String) (s : RemoteState)
    (tid : Nat) (htid : tid ∈ trunks_to_delete number s.trunks) :
    Call.deleteTrunk tid ∈ plan number s := by
  have hne : ¬ (trunks_to_delete number s.trunks).isEmpty = true := by
    cases h : trunks_to_delete number s.trunks with
    | nil => rw [h] at htid; cases htid
    | cons a l => simp
  rw [plan_eq, if_neg hne]
  refine List.mem_append.mpr (Or.inl (List.mem_append.mpr (Or.inr ?_)))
  refine List.mem_append.mpr (Or.inr ?_)
  exact List.mem_map.mpr ⟨tid, htid, rfl⟩

/-- The deletion call for each listed rule that references a collected trunk
id is part of the plan. -/
theorem deleteRule_call_mem_plan (number : String) (s : RemoteState)
    (r : SIPDispatchRuleInfo) (hr : r ∈ s.rules)
    (hconf : ruleConflicts (trunks_to_delete number s.trunks) r = true) :
    Call.deleteRule r.sip_dispatch_rule_id ∈ plan number s := by
  have hne : ¬ (trunks_to_delete number s.trunks).isEmpty = true := by
    unfold ruleConflicts at hconf
    rw [List.any_eq_true] at hconf
    obtain ⟨tid, htid, _⟩ := hconf
    cases h : trunks_to_delete number s.trunks with
    | nil => rw [h] at htid; cases htid
    | cons a l => simp
  rw [plan_eq, if_neg hne]
  refine List.mem_append.mpr (Or.inl (List.mem_append.mpr (Or.inr ?_)))
  refine List.mem_append.mpr (Or.inl (List.mem_append.mpr (Or.inr ?_)))
  refine List.mem_map.mpr ⟨r.sip_dispatch_rule_id, ?_, rfl⟩
  rw [deletedRuleIds_def]
  exact List.mem_map.mpr ⟨r, List.mem_filter.mpr ⟨hr, hconf⟩, rfl⟩

/-- C3: Conflict discovery selects exactly the trunks whose number set
contains the target phone number: a listed trunk is added to the deletion set
if and only if its `numbers` field contains the target number (the extra
non-emptiness guard in the source changes nothing). -/
theorem conflict_discovery_exact (number : String)
    (trunks : List SIPInboundTrunkInfo) :
    trunks_to_delete number trunks =
      (trunks.filter (fun t => t.numbers.contains number)).map
        (fun t => t.sip_trunk_id) := by
  unfold trunks_to_delete
  congr 1
  apply List.filter_congr
  intro t _
  cases hc : t.numbers.contains number with
  | false => simp [hc]
  | true =>
    have hne : t.numbers ≠ [] := by
      intro h0
      rw [h0] at hc
      cases hc
    simp [hc, hne]

/-- C2: every dispatch rule referencing a conflicting trunk has its delete
call in the plan, the conflicting trunk has its delete call in the plan, and
every rule-deletion call is issued strictly before every trunk-deletion
call. -/
theorem rules_deleted_strictly_before_trunks (number : String)
    (s : RemoteState) (tid : Nat)
    (htid : tid ∈ trunks_to_delete number s.trunks) :
    Call.deleteTrunk tid ∈ plan number s ∧
    (∀ r ∈ s.rules, tid ∈ r.trunk_ids →
      Call.deleteRule r.sip_dispatch_rule_id ∈ plan number s) ∧
    (∀ i j (hi : i < (plan number s).length) (hj : j < (plan number s).length),
      isDeleteRuleCall (plan number s)[i] = true →
      isDeleteTrunkCall (plan number s)[j] = true → i < j) := by
  refine ⟨deleteTrunk_call_mem_plan number s tid htid, ?_,
    noneAfterFirst_lt _ (plan_rules_before_trunks number s)⟩
  intro r hr hmem
  apply deleteRule_call_mem_plan number s r hr
  unfold ruleConflicts
  rw [List.any_eq_true]
  exact ⟨tid, htid, by simpa using hmem⟩

/-- Witness for C2: in the sample state, trunk 7 conflicts and its delete
call is planned. -/
theorem rules_deleted_strictly_before_trunks_witness :
    Call.deleteTrunk 7 ∈ plan "+912271264190" sampleState :=
  (rules_deleted_strictly_before_trunks "+912271264190" sampleState 7
    (by decide)).1

/-- C4: a trunk that does not carry the target number is never listed for
deletion and survives the run unchanged; a rule bound only to such trunks is
never listed for deletion and survives unchanged; and the new trunk for the
target number is still created alongside them. -/
theorem no_cross_number_interference (u number : String) (s : RemoteState)
    (hwf : WF s) :
    (∀ t ∈ s.trunks, t.numbers.contains number = false →
      Call.deleteTrunk t.sip_trunk_id ∉ plan number s ∧
      t ∈ (mainRun (some u) number none s).finalState.trunks) ∧
    (∀ r ∈ s.rules,
      (∀ tid ∈ r.trunk_ids, ∀ t ∈ s.trunks, t.sip_trunk_id = tid →
        t.numbers.contains number = false) →
      Call.deleteRule r.sip_dispatch_rule_id ∉ plan number s ∧
      r ∈ (mainRun (some u) number none s).finalState.rules) ∧
    assignedTrunk number s.nextId ∈
      (mainRun (some u) number none s).finalState.trunks := by
  obtain ⟨hwt, hwr, hnt, hnr⟩ := hwf
  refine ⟨?_, ?_, ?_⟩
  · intro t ht hnc
    have hnotdel : t.sip_trunk_id ∉ trunks_to_delete number s.trunks := by
      intro hin
      unfold trunks_to_delete at hin
      obtain ⟨t2, ht2, hid⟩ := List.mem_map.mp hin
      have ht2mem := (List.mem_filter.mp ht2).1
      have ht2pred := (List.mem_filter.mp ht2).2
      have heq : t2 = t := List.inj_on_of_nodup_map hnt ht2mem ht hid
      subst heq
      rw [Bool.and_eq_true] at ht2pred
      rw [hnc] at ht2pred
      cases ht2pred.2
    constructor
    · intro hmem
      rw [plan_eq] at hmem
      rcases List.mem_append.mp hmem with hc | hc
      · rcases List.mem_append.mp hc with hc | hc
        · simp at hc
        · by_cases h : (trunks_to_delete number s.trunks).isEmpty
          · rw [if_pos h] at hc
            cases hc
          · rw [if_neg h] at hc
            rcases List.mem_append.mp hc with hc | hc
            · rcases List.mem_append.mp hc with hc | hc
              · simp at hc
              · obtain ⟨x, _, hx⟩ := List.mem_map.mp hc
                cases hx
            · obtain ⟨x, hxmem, hx⟩ := List.mem_map.mp hc
              cases hx
              exact hnotdel hxmem
      · simp at hc
    · rw [finalState_success]
      dsimp only
      refine List.mem_append.mpr (Or.inl (List.mem_filter.mpr ⟨ht, ?_⟩))
      simpa using hnotdel
  · intro r hr honly
    have hnoconf : ruleConflicts (trunks_to_delete number s.trunks) r = false := by
      cases hcc : ruleConflicts (trunks_to_delete number s.trunks) r with
      | false => rfl
      | true =>
        exfalso
        unfold ruleConflicts at hcc
        rw [List.any_eq_true] at hcc
        obtain ⟨tid, htid, hcont⟩ := hcc
        unfold trunks_to_delete at htid
        obtain ⟨t2, ht2, hid⟩ := List.mem_map.mp htid
        have ht2mem := (List.mem_filter.mp ht2).1
        have ht2pred := (List.mem_filter.mp ht2).2
        have hmemtid : tid ∈ r.trunk_ids := by simpa using hcont
        have := honly tid hmemtid t2 ht2mem hid
        rw [Bool.and_eq_true] at ht2pred
        rw [this] at ht2pred
        cases ht2pred.2
    have hnotdel : r.sip_dispatch_rule_id ∉ deletedRuleIds number s := by
      intro hin
      rw [deletedRuleIds_def] at hin
      obtain ⟨r2, hr2, hid⟩ := List.mem_map.mp hin
      have hr2mem := (List.mem_filter.mp hr2).1
      have hr2pred := (List.mem_filter.mp hr2).2
      have heq : r2 = r := List.inj_on_of_nodup_map hnr hr2mem hr hid
      subst heq
      rw [hnoconf] at hr2pred
      cases hr2pred
    constructor
    · intro hmem
      rw [plan_eq] at hmem
      rcases List.mem_append.mp hmem with hc | hc
      · rcases List.mem_append.mp hc with hc | hc
        · simp at hc
        · by_cases h : (trunks_to_delete number s.trunks).isEmpty
          · rw [if_pos h] at hc
            cases hc
          · rw [if_neg h] at hc
            rcases List.mem_append.mp hc with hc | hc
            · rcases List.mem_append.mp hc with hc | hc
              · simp at hc
              · obtain ⟨x, hxmem, hx⟩ := List.mem_map.mp hc
                cases hx
                exact hnotdel hxmem
            · obtain ⟨x, _, hx⟩ := List.mem_map.mp hc
              cases hx
      · simp at hc
    · rw [finalState_success]
      dsimp only
      refine List.mem_append.mpr (Or.inl (List.mem_filter.mpr ⟨hr, ?_⟩))
      simpa using hnotdel
  · rw [finalState_success]
    dsimp only
    exact List.mem_append.mpr (Or.inr (List.mem_cons_self _ _))

/-- Witness for C4: the unrelated trunk 8 of the sample state survives the
run. -/
theorem no_cross_number_interference_witness :
    sampleTrunkB ∈
      (mainRun (some "wss://proj.livekit.cloud") "+912271264190" none
        sampleState).finalState.trunks :=
  ((no_cross_number_interference "wss://proj.livekit.cloud" "+912271264190"
      sampleState (by unfold WF; decide)).1 sampleTrunkB (by decide)
      (by decide)).2

/-- C1: running the reconciliation twice in sequence against the same remote
endpoint with the same target number leaves exactly one trunk carrying the
number and exactly one dispatch rule referencing it (through the stored
trunks), and the second run does not grow the trunk or rule lists: no
duplicates accumulate. -/
theorem reconcile_idempotent (u number : String) (s : RemoteState)
    (hwf : WF s) :
    (mainRun (some u) number none
        ((mainRun (some u) number none s).finalState)).finalState.trunks.countP
      (fun t => t.numbers.contains number) = 1 ∧
    (mainRun (some u) number none
        ((mainRun (some u) number none s).finalState)).finalState.rules.countP
      (ruleTargetsNumber number
        (mainRun (some u) number none
          ((mainRun (some u) number none s).finalState)).finalState) = 1 ∧
    (mainRun (some u) number none
        ((mainRun (some u) number none s).finalState)).finalState.trunks.length =
      (mainRun (some u) number none s).finalState.trunks.length ∧
    (mainRun (some u) number none
        ((mainRun (some u) number none s).finalState)).finalState.rules.length =
      (mainRun (some u) number none s).finalState.rules.length := by
  obtain ⟨h2t, h2r⟩ := second_run_state u number s hwf
  refine ⟨countP_trunks_target u number _,
    countP_rules_target u number _ (WF_finalState u number s hwf), ?_, ?_⟩
  · rw [h2t, finalState_success]
    dsimp only
    rw [List.length_append, List.length_append]
    simp
  · rw [h2r, finalState_success]
    dsimp only
    rw [List.length_append, List.length_append]
    simp

/-- Witness for C1: from the sample state (one conflicting trunk, one linked
rule), two runs leave exactly one trunk carrying the number. -/
theorem reconcile_idempotent_witness :
    (mainRun (some "wss://proj.livekit.cloud") "+912271264190" none
        ((mainRun (some "wss://proj.livekit.cloud") "+912271264190" none
          sampleState).finalState)).finalState.trunks.countP
      (fun t => t.numbers.contains "+912271264190") = 1 :=
  (reconcile_idempotent "wss://proj.livekit.cloud" "+912271264190" sampleState
    (by unfold WF; decide)).1

/-- Among the planned calls, exactly one is a trunk creation and it carries
the fixed request of lines 68-77. -/
theorem plan_filter_createTrunk (number : String) (s : RemoteState) :
    (plan number s).filter isCreateTrunkCall =
      [Call.createTrunk (newTrunkRequest number)] := by
  rw [plan_eq, List.filter_append, List.filter_append]
  have h1 : ([Call.listTrunks] : List Call).filter isCreateTrunkCall = [] := rfl
  have h2 : (if (trunks_to_delete number s.trunks).isEmpty then ([] : List Call)
      else
        [Call.listRules] ++ (deletedRuleIds number s).map Call.deleteRule ++
          (trunks_to_delete number s.trunks).map Call.deleteTrunk).filter
      isCreateTrunkCall = [] := by
    by_cases h : (trunks_to_delete number s.trunks).isEmpty
    · rw [if_pos h]
      rfl
    · rw [if_neg h, List.filter_eq_nil_iff]
      intro c hc
      rcases List.mem_append.mp hc with hc | hc
      · rcases List.mem_append.mp hc with hc | hc
        · simp at hc
          subst hc
          simp [isCreateTrunkCall]
        · obtain ⟨x, _, rfl⟩ := List.mem_map.mp hc
          simp [isCreateTrunkCall]
      · obtain ⟨x, _, rfl⟩ := List.mem_map.mp hc
        simp [isCreateTrunkCall]
  rw [h1, h2]
  rfl

/-- Among the planned calls, exactly one is a dispatch-rule creation and it
carries the fixed request of lines 83-96, referencing the fresh trunk id. -/
theorem plan_filter_createRule (number : String) (s : RemoteState) :
    (plan number s).filter isCreateRuleCall =
      [Call.createRule (newRuleRequest s.nextId)] := by
  rw [plan_eq, List.filter_append, List.filter_append]
  have h1 : ([Call.listTrunks] : List Call).filter isCreateRuleCall = [] := rfl
  have h2 : (if (trunks_to_delete number s.trunks).isEmpty then ([] : List Call)
      else
        [Call.listRules] ++ (deletedRuleIds number s).map Call.deleteRule ++
          (trunks_to_delete number s.trunks).map Call.deleteTrunk).filter
      isCreateRuleCall = [] := by
    by_cases h : (trunks_to_delete number s.trunks).isEmpty
    · rw [if_pos h]
      rfl
    · rw [if_neg h, List.filter_eq_nil_iff]
      intro c hc
      rcases List.mem_append.mp hc with hc | hc
      · rcases List.mem_append.mp hc with hc | hc
        · simp at hc
          subst hc
          simp [isCreateRuleCall]
        · obtain ⟨x, _, rfl⟩ := List.mem_map.mp hc
          simp [isCreateRuleCall]
      · obtain ⟨x, _, rfl⟩ := List.mem_map.mp hc
        simp [isCreateRuleCall]
  rw [h1, h2]
  rfl

/-- C5: the run issues exactly one trunk-creation request; it carries the
target number as its sole number, the accept-any-source allow-list, and noise
suppression enabled; and the run captures the identifier the remote service
assigns to the new trunk. -/
theorem create_trunk_request_exact (u number : String) (s : RemoteState) :
    (plan number s).filter isCreateTrunkCall =
      [Call.createTrunk (newTrunkRequest number)] ∧
    (newTrunkRequest number).numbers = [number] ∧
    (newTrunkRequest number).allowed_addresses = ["0.0.0.0/0"] ∧
    (newTrunkRequest number).krisp_enabled = true ∧
    (mainRun (some u) number none s).trunkId = some s.nextId ∧
    assignedTrunk number s.nextId ∈
      (mainRun (some u) number none s).finalState.trunks ∧
    (assignedTrunk number s.nextId).sip_trunk_id = s.nextId := by
  refine ⟨plan_filter_createTrunk number s, rfl, rfl, rfl, ?_, ?_, rfl⟩
  · rw [mainRun_some_trunkId]
    have hct : Call.createTrunk (newTrunkRequest number) ∈ plan number s := by
      rw [plan_eq]
      refine List.mem_append.mpr (Or.inr ?_)
      exact List.mem_cons_self _ _
    have hany : (executedCalls none (plan number s)).any isCreateTrunkCall = true := by
      rw [List.any_eq_true]
      exact ⟨Call.createTrunk (newTrunkRequest number), hct, rfl⟩
    rw [if_pos hany]
  · rw [finalState_success]
    dsimp only
    exact List.mem_append.mpr (Or.inr (List.mem_cons_self _ _))

/-- C6: the run issues exactly one dispatch-rule creation request; it
references only the freshly assigned trunk id, uses the "individual" variant
with room prefix "call-", and dispatches exactly the agent
"voice-assistant"; when no trunks exist beforehand, the whole run is
list-create-create, leaving exactly one trunk and appending exactly one
rule. -/
theorem create_rule_request_exact (u number : String) (s : RemoteState) :
    (plan number s).filter isCreateRuleCall =
      [Call.createRule (newRuleRequest s.nextId)] ∧
    (newRuleRequest s.nextId).trunk_ids = [s.nextId] ∧
    (newRuleRequest s.nextId).rule =
      SIPDispatchRule.individual { roomPrefix := "call-" } ∧
    (newRuleRequest s.nextId).room_config =
      { agents := [{ agent_name := "voice-assistant" }] } ∧
    (s.trunks = [] →
      plan number s =
        [Call.listTrunks, Call.createTrunk (newTrunkRequest number),
         Call.createRule (newRuleRequest s.nextId)] ∧
      (mainRun (some u) number none s).finalState.trunks =
        [assignedTrunk number s.nextId] ∧
      (mainRun (some u) number none s).finalState.rules =
        s.rules ++ [assignedRule s.nextId]) := by
  refine ⟨plan_filter_createRule number s, rfl, rfl, rfl, ?_⟩
  intro hempty
  have htds : trunks_to_delete number s.trunks = [] := by
    rw [hempty]
    rfl
  have hrds : deletedRuleIds number s = [] := by
    rw [deletedRuleIds_def, htds]
    have hf : s.rules.filter (ruleConflicts []) = [] := by
      rw [List.filter_eq_nil_iff]
      intro r _
      simp [ruleConflicts]
    rw [hf]
    rfl
  refine ⟨?_, ?_, ?_⟩
  · rw [plan_eq, htds]
    rfl
  · rw [finalState_success]
    dsimp only
    rw [htds]
    have : s.trunks.filter (fun t => !(([] : List Nat).contains t.sip_trunk_id)) =
        s.trunks := by
      rw [List.filter_eq_self]
      intro t _
      rfl
    rw [this, hempty]
    rfl
  · rw [finalState_success]
    dsimp only
    rw [hrds]
    have : s.rules.filter
        (fun r => !(([] : List Nat).contains r.sip_dispatch_rule_id)) = s.rules := by
      rw [List.filter_eq_self]
      intro r _
      rfl
    rw [this]

/-- Witness for C6: from the empty state the whole run is
list-create-create. -/
theorem create_rule_request_exact_witness :
    plan "+912271264190" emptyState =
      [Call.listTrunks, Call.createTrunk (newTrunkRequest "+912271264190"),
       Call.createRule (newRuleRequest 0)] :=
  ((create_rule_request_exact "wss://proj.livekit.cloud" "+912271264190"
      emptyState).2.2.2.2 rfl).1

/-- If the `n`-th planned call is a deletion, nothing up to and including it
creates a resource. -/
theorem take_no_creates (number : String) (s : RemoteState) (n : Nat)
    (hn : n < (plan number s).length)
    (hd : isDeleteCall (plan number s)[n] = true) :
    ∀ c ∈ (plan number s).take (n + 1), isCreateCall c = false := by
  intro c hc
  cases hcc : isCreateCall c with
  | false => rfl
  | true =>
    exfalso
    obtain ⟨i, hi, hci⟩ := List.mem_iff_getElem.mp hc
    rw [List.length_take] at hi
    have hi1 : i < n + 1 := lt_of_lt_of_le hi (min_le_left _ _)
    have hi2 : i < (plan number s).length := lt_of_lt_of_le hi (min_le_right _ _)
    rw [List.getElem_take] at hci
    have hcreate : isCreateCall (plan number s)[i] = true := by
      rw [hci]
      exact hcc
    have := noneAfterFirst_lt (plan number s)
      (plan_deletes_before_creates number s) n i hn hi2 hd hcreate
    omega

/-- Folding a create-free call list never adds a resource and never consumes
an identifier. -/
theorem foldl_no_creates : ∀ (cs : List Call) (s : RemoteState),
    (∀ c ∈ cs, isCreateCall c = false) →
    (cs.foldl applyCall s).nextId = s.nextId ∧
    (∀ t ∈ (cs.foldl applyCall s).trunks, t ∈ s.trunks) ∧
    (∀ r ∈ (cs.foldl applyCall s).rules, r ∈ s.rules) := by
  intro cs
  induction cs with
  | nil => exact fun s _ => ⟨rfl, fun t ht => ht, fun r hr => hr⟩
  | cons c cs ih =>
    intro s hall
    rw [List.foldl_cons]
    have hc := hall c (List.mem_cons_self _ _)
    have ih' := ih (applyCall s c) fun d hd => hall d (List.mem_cons_of_mem _ hd)
    cases c with
    | listTrunks => exact ih'
    | listRules => exact ih'
    | close => exact ih'
    | deleteRule rid =>
      refine ⟨ih'.1.trans rfl, fun t ht => ih'.2.1 t ht, fun r hr => ?_⟩
      exact List.mem_of_mem_filter (ih'.2.2 r hr)
    | deleteTrunk tid =>
      refine ⟨ih'.1.trans rfl, fun t ht => ?_, fun r hr => ih'.2.2 r hr⟩
      exact List.mem_of_mem_filter (ih'.2.1 t ht)
    | createTrunk req => simp [isCreateCall, isCreateTrunkCall] at hc
    | createRule req => simp [isCreateCall, isCreateRuleCall] at hc

/-- No attempted-call prefix ever contains the client-close call. -/
theorem attempted_count_close (number : String) (failAt : Option Nat)
    (s : RemoteState) :
    (attemptedCalls failAt (plan number s)).count Call.close = 0 := by
  rw [List.count_eq_zero]
  intro hmem
  have hp : Call.close ∈ plan number s := by
    unfold attemptedCalls at hmem
    cases failAt with
    | none => exact hmem
    | some n => exact List.take_subset _ _ hmem
  exact plan_no_close number s Call.close hp rfl

/-- C7: if the `n`-th remote call is a deletion and it raises, the run
attempts exactly the calls up to and including it — in particular no create
call and nothing after the failing call — performs no compensating action
(the final state holds no resource that was not already present, and no
fresh identifier was consumed), reports failure, and still closes the client
exactly once. -/
theorem failure_mid_cascade_aborts (u number : String) (s : RemoteState)
    (n : Nat) (hn : n < (plan number s).length)
    (hd : isDeleteCall (plan number s)[n] = true) :
    (mainRun (some u) number (some n) s).remoteTrace =
      (plan number s).take (n + 1) ∧
    (∀ c ∈ (mainRun (some u) number (some n) s).remoteTrace,
      isCreateCall c = false) ∧
    (mainRun (some u) number (some n) s).ok = false ∧
    (mainRun (some u) number (some n) s).fullTrace.count Call.close = 1 ∧
    (mainRun (some u) number (some n) s).finalState.nextId = s.nextId ∧
    (∀ t ∈ (mainRun (some u) number (some n) s).finalState.trunks,
      t ∈ s.trunks) ∧
    (∀ r ∈ (mainRun (some u) number (some n) s).finalState.rules,
      r ∈ s.rules) := by
  have htr : (mainRun (some u) number (some n) s).remoteTrace =
      (plan number s).take (n + 1) := rfl
  have hexec : executedCalls (some n) (plan number s) =
      (plan number s).take n := rfl
  have hnc : ∀ c ∈ (plan number s).take n, isCreateCall c = false := by
    have h1 : ((plan number s).take (n + 1)).take n = (plan number s).take n := by
      rw [List.take_take, Nat.min_eq_left (Nat.le_succ n)]
    intro c hc
    apply take_no_creates number s n hn hd
    rw [← h1] at hc
    exact List.take_subset _ _ hc
  have hstate := foldl_no_creates ((plan number s).take n) s hnc
  refine ⟨htr, ?_, ?_, ?_, ?_, ?_, ?_⟩
  · rw [htr]
    exact take_no_creates number s n hn hd
  · rw [mainRun_some_ok]
    simp [runSucceeds]
    omega
  · rw [mainRun_some_fullTrace, List.count_append, attempted_count_close]
    rfl
  · rw [mainRun_some_finalState, hexec]
    exact hstate.1
  · rw [mainRun_some_finalState, hexec]
    exact hstate.2.1
  · rw [mainRun_some_finalState, hexec]
    exact hstate.2.2

/-- Witness for C7: in the sample state the call at index 3 is the trunk
deletion; failing there reports failure. -/
theorem failure_mid_cascade_aborts_witness :
    (mainRun (some "wss://proj.livekit.cloud") "+912271264190" (some 3)
      sampleState).ok = false :=
  (failure_mid_cascade_aborts "wss://proj.livekit.cloud" "+912271264190"
    sampleState 3 (by decide) (by decide)).2.2.1

/-- C8 counterexample: with the project URL unset, the crash on line 20
happens before the `try` block, so this exit path terminates without ever
releasing the client — the claim fails on this run. -/
theorem client_release_missing_url_cex :
    (mainRun none "+912271264190" none sampleState).fullTrace.count
        Call.close = 0 ∧
      ¬ ((mainRun none "+912271264190" none sampleState).fullTrace.count
        Call.close = 1) :=
  ⟨rfl, by decide⟩

/-- C8 amended: on every exit path reached once the project URL is present —
so the `try` block is entered — the client is released exactly once, whether
the run succeeds or any remote call fails. -/
theorem client_release_once (u number : String) (failAt : Option Nat)
    (s : RemoteState) :
    (mainRun (some u) number failAt s).fullTrace.count Call.close = 1 := by
  rw [mainRun_some_fullTrace, List.count_append, attempted_count_close]
  rfl

/-- C9: with the project URL unset, the run crashes while deriving the SIP
endpoint string: no endpoint is produced, no remote list, delete or create
call is issued, the remote state is untouched, and the run does not
succeed. -/
theorem missing_url_crashes_before_calls (number : String)
    (failAt : Option Nat) (s : RemoteState) :
    (mainRun none number failAt s).remoteTrace = [] ∧
    (mainRun none number failAt s).sipEndpoint = none ∧
    (mainRun none number failAt s).ok = false ∧
    (mainRun none number failAt s).finalState = s :=
  ⟨rfl, rfl, rfl, rfl⟩

/-- C10: a listed rule whose trunk-id set contains at least one conflicting
trunk id — even one also referencing trunks that are not deleted — has its
delete call in the plan and is removed as a whole: it does not survive the
run, and every rule of the final state is either an untouched original or
the single freshly created rule (no partially detached variant exists). -/
theorem mixed_rule_removed_entirely (u number : String) (s : RemoteState)
    (hwf : WF s) (r : SIPDispatchRuleInfo) (hr : r ∈ s.rules) (tid : Nat)
    (htid : tid ∈ r.trunk_ids)
    (hconf : tid ∈ trunks_to_delete number s.trunks) :
    Call.deleteRule r.sip_dispatch_rule_id ∈ plan number s ∧
    r ∉ (mainRun (some u) number none s).finalState.rules ∧
    (∀ q ∈ (mainRun (some u) number none s).finalState.rules,
      q ∈ s.rules ∨ q = assignedRule s.nextId) := by
  obtain ⟨hwt, hwr, hnt, hnr⟩ := hwf
  have hrc : ruleConflicts (trunks_to_delete number s.trunks) r = true := by
    unfold ruleConflicts
    rw [List.any_eq_true]
    exact ⟨tid, hconf, by simpa using htid⟩
  have hin : r.sip_dispatch_rule_id ∈ deletedRuleIds number s := by
    rw [deletedRuleIds_def]
    exact List.mem_map.mpr ⟨r, List.mem_filter.mpr ⟨hr, hrc⟩, rfl⟩
  refine ⟨deleteRule_call_mem_plan number s r hr hrc, ?_, ?_⟩
  · intro hmem
    rw [finalState_success] at hmem
    dsimp only at hmem
    rcases List.mem_append.mp hmem with hc | hc
    · have hpred := (List.mem_filter.mp hc).2
      simp [List.elem_eq_mem, hin] at hpred
    · simp at hc
      have hidlt := (hwr r hr).1
      have : r.sip_dispatch_rule_id = (assignedRule s.nextId).sip_dispatch_rule_id := by
        rw [hc]
      simp [assignedRule] at this
      omega
  · intro q hq
    rw [finalState_success] at hq
    dsimp only at hq
    rcases List.mem_append.mp hq with hc | hc
    · exact Or.inl (List.mem_of_mem_filter hc)
    · simp at hc
      exact Or.inr hc

/-- Witness for C10: in the mixed state, rule 5 references conflicting trunk
7 as well as unrelated trunk 8, and its delete call is planned. -/
theorem mixed_rule_removed_entirely_witness :
    Call.deleteRule 5 ∈ plan "+912271264190" mixedState :=
  (mixed_rule_removed_entirely "wss://proj.livekit.cloud" "+912271264190"
    mixedState (by unfold WF; decide) sampleRuleMixed (by decide) 7
    (by decide) (by decide)).1
